import Mathlib

/-!
# Verification of the two-tree diff engine (src/index.ts)

This file embeds the change classifier and patch post-processing of the
repository's `diff` function (the `map` callback handed to the tree walk,
together with `removeNoiseFromPatch`) and settles the specification claims
about it.  External collaborators (the tree walker `git.walk` and the patch
generator `Diff.createPatch`) are modelled from the specification, as marked
on their definitions.
-/

namespace GitDiff

/-! ## String utilities

JavaScript string operations used by the source, embedded on the underlying
character lists: `s.split("\n")`, `array.join("\n")`, `String(number)`, and
numeric truthiness. -/

/-- `splitChars cs` is JavaScript `s.split("\n")` on the character list:
every newline separates pieces, so an empty input gives one empty piece and a
trailing newline gives a trailing empty piece. -/
def splitChars : List Char → List (List Char)
  | [] => [[]]
  | c :: cs =>
    if c = '\n' then [] :: splitChars cs
    else (splitChars cs).modifyHead (fun l => c :: l)

/-- `joinChars ls` is JavaScript `array.join("\n")` on character lists. -/
def joinChars : List (List Char) → List Char
  | [] => []
  | [l] => l
  | l :: ls => l ++ '\n' :: joinChars ls

/-- JavaScript `s.split("\n")`. -/
def jsSplitNL (s : String) : List String := (splitChars s.data).map String.mk

/-- JavaScript `array.join("\n")`. -/
def joinNL (ls : List String) : String := String.mk (joinChars (ls.map String.data))

/-- JavaScript truthiness of a `number | undefined` value: `undefined` and `0`
are falsy, every other numeric mode is truthy. -/
def truthy : Option Nat → Bool
  | none => false
  | some n => !(n == 0)

/-- JavaScript `String(x)` on a `number | undefined` value (decimal encoding;
`String(undefined)` is the text `undefined`). -/
def jsString : Option Nat → String
  | none => "undefined"
  | some n => Nat.repr n

/-- Boolean lexicographic comparison of character lists (used to fix the
walker's deterministic path order). -/
def charsLe : List Char → List Char → Bool
  | [], _ => true
  | _ :: _, [] => false
  | a :: as, b :: bs => if a < b then true else if b < a then false else charsLe as bs

/-- Lexicographic comparison of strings. -/
def strLe (a b : String) : Bool := charsLe a.data b.data

/-! ## Data model -/

/-- Kind of a walker entry: regular file content (`blob`) or directory
(`tree`). -/
inductive EntryType where
  | blob
  | tree
deriving DecidableEq, Repr

/-- One side's entry at a path, as the walk's `map` callback observes it:
`type()`, `mode()`, `oid()` (the content identity) and the UTF-8 decoded
`content()` (which may be absent, e.g. for a directory). -/
structure Entry where
  type : EntryType
  mode : Nat
  oid : String
  content : Option String
deriving DecidableEq, Repr

/-- The change record assembled by the `map` callback in `src/index.ts`. -/
structure ChangeRecord where
  diff : String
  new_path : Option String
  old_path : Option String
  a_mode : Option String
  b_mode : Option String
  new_file : Bool
  renamed_file : Bool
  deleted_file : Bool
deriving DecidableEq, Repr

/-- The classification kinds of `src/index.ts` line 45:
`"add" | "equal" | "modify" | "remove"`. -/
inductive ChangeType where
  | add
  | equal
  | modify
  | remove
deriving DecidableEq, Repr

/-! ## The classifier (`map` callback) and patch post-processing -/

/-- `removeNoiseFromPatch` from `src/index.ts` lines 16-18:
`patch.split("\n").slice(2).join("\n")`. -/
def removeNoiseFromPatch (patch : String) : String :=
  joinNL ((jsSplitNL patch).drop 2)

/-- The `map` callback of `src/index.ts` lines 31-137, parameterized by the
patch generator `cp` (the source's `Diff.createPatch`).  `A` and `B` are the
two sides' entries at `filepath` (`none` models `undefined`).  The thrown
`Error` is modelled as `Except.error` carrying the message. -/
def map (cp : String → String → String → String) (filepath : String)
    (A B : Option Entry) : Except String (Option ChangeRecord) :=
  if filepath = "." then .ok none
  else if Option.map Entry.type A = some EntryType.tree
      ∨ Option.map Entry.type B = some EntryType.tree then .ok none
  else
    let aMode := Option.map Entry.mode A
    let bMode := Option.map Entry.mode B
    let aOID := Option.map Entry.oid A
    let bOID := Option.map Entry.oid B
    let t1 := if aOID ≠ bOID then ChangeType.modify else ChangeType.equal
    let t2 := if aOID = none then ChangeType.add else t1
    let t3 := if bOID = none then ChangeType.remove else t2
    if aOID = none ∧ bOID = none then
      .error ("Something weird happened while trying to walk on: " ++ filepath)
    else
      match t3 with
      | ChangeType.add =>
        let content := Option.bind B Entry.content
        let patch := cp filepath "" (content.getD "")
        .ok (some
          { diff := removeNoiseFromPatch patch
            new_path := some filepath
            old_path := none
            a_mode := if truthy aMode then some (jsString aMode) else none
            b_mode := if truthy bMode then some (jsString bMode) else none
            new_file := true
            renamed_file := false
            deleted_file := false })
      | ChangeType.modify =>
        let aContent := Option.bind A Entry.content
        let bContent := Option.bind B Entry.content
        let patch := cp filepath (aContent.getD "") (bContent.getD "")
        .ok (some
          { diff := removeNoiseFromPatch patch
            new_path := some filepath
            old_path := some filepath
            a_mode := if truthy aMode then some (jsString aMode) else none
            b_mode := if truthy bMode then some (jsString aMode) else none
            new_file := false
            renamed_file := false
            deleted_file := false })
      | ChangeType.remove =>
        let aContent := Option.bind A Entry.content
        let bContent := Option.bind B Entry.content
        let patch := cp filepath (aContent.getD "") (bContent.getD "")
        .ok (some
          { diff := removeNoiseFromPatch patch
            new_path := none
            old_path := some filepath
            a_mode := if truthy aMode then some (jsString aMode) else none
            b_mode := if truthy bMode then some (jsString aMode) else none
            new_file := false
            renamed_file := false
            deleted_file := true })
      | ChangeType.equal => .ok none

/-! ## The patch generator, modelled from the spec -/

/-- Text split into lines for diffing; the empty text has no lines, so that an
add or remove diff shows the full content as one-sided. -/
def textLines (s : String) : List String := if s = "" then [] else jsSplitNL s

/-- Length of the longest common prefix of two line lists. -/
def commonPrefixLen : List String → List String → Nat
  | a :: as, b :: bs => if a = b then commonPrefixLen as bs + 1 else 0
  | _, _ => 0

/-- Length of the longest common suffix of two line lists. -/
def commonSuffixLen (a b : List String) : Nat := commonPrefixLen a.reverse b.reverse

/-- Modelled from the spec: the hunk body of the unified diff between two line
lists — common prefix and suffix lines kept as context, the differing middle
emitted as deletions of the old lines then additions of the new lines
("a textual patch format expressing line-level insertions/deletions between
two text bodies"). -/
def diffBody (olds news : List String) : List String :=
  let p := commonPrefixLen olds news
  let ol := olds.drop p
  let nl := news.drop p
  let s := commonSuffixLen ol nl
  (olds.take p).map (fun l => " " ++ l)
    ++ (ol.take (ol.length - s)).map (fun l => "-" ++ l)
    ++ (nl.take (nl.length - s)).map (fun l => "+" ++ l)
    ++ (ol.drop (ol.length - s)).map (fun l => " " ++ l)

/-- The hunk range line preceding the hunk body. -/
def hunkHeader (olds news : List String) : String :=
  "@@ -1," ++ Nat.repr olds.length ++ " +1," ++ Nat.repr news.length ++ " @@"

/-- Modelled from the spec: the line list of the patch produced by the external
diff tool (`Diff.createPatch`, absent from `src/`) for (old-text, new-text)
labeled with `path` — "the diff tool's conventional output begins with two
header lines identifying the compared labels", followed by the hunk. -/
def createPatchLines (path old new : String) : List String :=
  let olds := textLines old
  let news := textLines new
  ("--- " ++ path) :: ("+++ " ++ path) :: hunkHeader olds news :: diffBody olds news

/-- Modelled from the spec: the external diff tool's patch text, the header and
hunk lines joined with newlines. -/
def createPatch (path old new : String) : String :=
  joinNL (createPatchLines path old new)

/-! ## The tree walker, modelled from the spec -/

/-- The paths holding an entry in a tree snapshot, here represented as an
association list from path to entry. -/
def keys (t : List (String × Entry)) : List String := t.map Prod.fst

/-- Modelled from the spec: the walker "enumerates the union of paths reachable
from treeA and treeB, visiting each exactly once", in a deterministic
lexicographic order. -/
def unionPaths (ta tb : List (String × Entry)) : List String :=
  (List.insertionSort (fun a b => strLe a b = true) (keys ta ++ keys tb)).dedup

/-- Modelled from the spec: visiting a list of paths in order, calling the
`map` callback with both sides' entries and collecting the records it returns;
an error aborts the whole walk. -/
def walkFrom (cp : String → String → String → String)
    (ta tb : List (String × Entry)) : List String → Except String (List ChangeRecord)
  | [] => .ok []
  | p :: ps =>
    match map cp p (List.lookup p ta) (List.lookup p tb) with
    | .error e => .error e
    | .ok none => walkFrom cp ta tb ps
    | .ok (some r) =>
      match walkFrom cp ta tb ps with
      | .error e => .error e
      | .ok rs => .ok (r :: rs)

/-- Modelled from the spec: `git.walk` over two tree snapshots — the synthetic
root `"."` is visited first, then every path present in either tree exactly
once in deterministic order, and the `map` callback's records are collected in
that order. -/
def walk (cp : String → String → String → String)
    (ta tb : List (String × Entry)) : Except String (List ChangeRecord) :=
  walkFrom cp ta tb ("." :: unionPaths ta tb)

/-! ## Derived notions used by the claims -/

/-- The content of a line if it starts with a plus sign, else nothing. -/
def plusExtract (l : String) : Option String :=
  match l.data with
  | c :: rest => if c = '+' then some (String.mk rest) else none
  | [] => none

/-- The content of a line if it starts with a minus sign, else nothing. -/
def minusExtract (l : String) : Option String :=
  match l.data with
  | c :: rest => if c = '-' then some (String.mk rest) else none
  | [] => none

/-- The addition lines of a patch text: the content of every line starting with
a plus sign. -/
def plusLines (s : String) : List String :=
  (jsSplitNL s).filterMap plusExtract

/-- The deletion lines of a patch text: the content of every line starting with
a minus sign. -/
def minusLines (s : String) : List String :=
  (jsSplitNL s).filterMap minusExtract

/-- `mirrors r s`: the record `s` is the structural mirror of the record `r` —
an add maps to a remove of the same path (old and new paths swapped), a remove
to an add, and a modify to a modify whose diff body has additions and deletions
swapped. -/
def mirrors (r s : ChangeRecord) : Bool :=
  (if r.new_file then
      s.deleted_file && !s.new_file
        && s.old_path == r.new_path && s.new_path == r.old_path
    else true)
  && (if r.deleted_file then
      s.new_file && !s.deleted_file
        && s.new_path == r.old_path && s.old_path == r.new_path
    else true)
  && (if !r.new_file && !r.deleted_file then
      !s.new_file && !s.deleted_file
        && s.new_path == r.new_path && s.old_path == r.old_path
        && plusLines s.diff == minusLines r.diff
        && minusLines s.diff == plusLines r.diff
    else true)

/-- Pointwise structural mirroring of two record lists. -/
def mirrorsList : List ChangeRecord → List ChangeRecord → Bool
  | [], [] => true
  | r :: rs, s :: ss => mirrors r s && mirrorsList rs ss
  | _, _ => false

/-- The records of a walk result that mention a given path. -/
def recordsFor (p : String) (rs : List ChangeRecord) : List ChangeRecord :=
  rs.filter (fun r => r.new_path == some p || r.old_path == some p)

/-- The record the walk produces for a path present only in tree B, holding
content `C` under mode `m`: a pure addition whose stored diff is the hunk
lines only. -/
def addedRecord (p C : String) (m : Nat) : ChangeRecord :=
  { diff := joinNL (hunkHeader [] (textLines C) :: (textLines C).map (fun l => "+" ++ l))
    new_path := some p
    old_path := none
    a_mode := none
    b_mode := if truthy (some m) then some (jsString (some m)) else none
    new_file := true
    renamed_file := false
    deleted_file := false }

/-! ## Sample data -/

/-- A sample blob entry. -/
def sA : Entry := { type := EntryType.blob, mode := 5, oid := "oidA", content := some "a\nb\nc" }

/-- A sample blob entry with the same content identity as `sA` but another
mode. -/
def sB : Entry := { type := EntryType.blob, mode := 7, oid := "oidA", content := some "a\nb\nc" }

/-- A sample blob entry differing from `sA` in content identity. -/
def sC : Entry := { type := EntryType.blob, mode := 5, oid := "oidC", content := some "a\nx\nc" }

/-- A sample blob entry whose numeric mode is zero. -/
def sZ : Entry := { type := EntryType.blob, mode := 0, oid := "oidZ", content := some "z" }

/-- A sample directory entry. -/
def sT : Entry := { type := EntryType.tree, mode := 3, oid := "oidT", content := none }

/-- The blob of the specification's scenario: tree A empty, tree B holding one
page. -/
def p1 : Entry := { type := EntryType.blob, mode := 5, oid := "oidP1", content := some "# This is the first page" }

/-- The scenario's tree B. -/
def tC : List (String × Entry) := [("page-1.md", p1)]

/-- The records of walking the empty tree against the scenario tree. -/
def wC3 : List ChangeRecord := (walk createPatch [] tC).toOption.getD []

/-- A sample tree pair exercising add, remove and modify at once: side A. -/
def tWa : List (String × Entry) := [("f.md", sA), ("old.md", sC)]

/-- A sample tree pair exercising add, remove and modify at once: side B. -/
def tWb : List (String × Entry) := [("f.md", sC), ("new.md", sA)]

/-- The records of walking the sample pair forwards. -/
def wRS : List ChangeRecord := (walk createPatch tWa tWb).toOption.getD []

/-- The records of walking the sample pair backwards. -/
def wSS : List ChangeRecord := (walk createPatch tWb tWa).toOption.getD []

/-! ## Lemmas: string utilities -/

theorem data_mk (l : List Char) : (String.mk l).data = l := rfl

theorem mk_data (s : String) : String.mk s.data = s := by cases s; rfl

theorem data_append (a b : String) : (a ++ b).data = a.data ++ b.data := by
  simp [String.data_append]

theorem splitChars_ne_nil (cs : List Char) : splitChars cs ≠ [] := by
  induction cs with
  | nil => simp [splitChars]
  | cons c cs ih =>
    simp only [splitChars]
    split
    · simp
    · cases h : splitChars cs with
      | nil => exact absurd h ih
      | cons l ls => simp [List.modifyHead]

theorem mem_splitChars_no_newline (cs : List Char) :
    ∀ l ∈ splitChars cs, '\n' ∉ l := by
  induction cs with
  | nil => simp [splitChars]
  | cons c cs ih =>
    simp only [splitChars]
    split
    · intro l hl
      rcases List.mem_cons.mp hl with h | h
      · simp [h]
      · exact ih l h
    · cases h : splitChars cs with
      | nil => exact absurd h (splitChars_ne_nil cs)
      | cons x xs =>
        intro l hl
        simp only [List.modifyHead] at hl
        rcases List.mem_cons.mp hl with h2 | h2
        · subst h2
          have hx : '\n' ∉ x := ih x (h ▸ List.mem_cons_self x xs)
          intro hc
          rcases List.mem_cons.mp hc with h3 | h3
          · exact (by assumption : ¬ c = '\n') h3.symm
          · exact hx h3
        · exact ih l (h ▸ List.mem_cons_of_mem x h2)

theorem splitChars_of_no_newline (x : List Char) (hx : '\n' ∉ x) :
    splitChars x = [x] := by
  induction x with
  | nil => rfl
  | cons c cs ih =>
    have hc : ¬ c = '\n' := fun h => hx (h ▸ List.mem_cons_self c cs)
    have hcs : '\n' ∉ cs := fun h => hx (List.mem_cons_of_mem c h)
    simp [splitChars, hc, ih hcs, List.modifyHead]

theorem splitChars_append_newline (x t : List Char) (hx : '\n' ∉ x) :
    splitChars (x ++ '\n' :: t) = x :: splitChars t := by
  induction x with
  | nil => simp [splitChars]
  | cons c cs ih =>
    have hc : ¬ c = '\n' := fun h => hx (h ▸ List.mem_cons_self c cs)
    have hcs : '\n' ∉ cs := fun h => hx (List.mem_cons_of_mem c h)
    simp [splitChars, hc, ih hcs, List.modifyHead]

theorem joinChars_cons_cons (a b : List Char) (t : List (List Char)) :
    joinChars (a :: b :: t) = a ++ '\n' :: joinChars (b :: t) := rfl

theorem splitChars_joinChars (ls : List (List Char)) (hne : ls ≠ [])
    (h : ∀ l ∈ ls, '\n' ∉ l) : splitChars (joinChars ls) = ls := by
  induction ls with
  | nil => exact absurd rfl hne
  | cons x xs ih =>
    cases xs with
    | nil =>
      simp only [joinChars]
      exact splitChars_of_no_newline x (h x (List.mem_cons_self x []))
    | cons y ys =>
      rw [joinChars_cons_cons]
      rw [splitChars_append_newline x _ (h x (List.mem_cons_self x (y :: ys)))]
      rw [ih (by simp) (fun l hl => h l (List.mem_cons_of_mem x hl))]

theorem jsSplitNL_joinNL (ls : List String) (hne : ls ≠ [])
    (h : ∀ s ∈ ls, '\n' ∉ s.data) : jsSplitNL (joinNL ls) = ls := by
  unfold jsSplitNL joinNL
  rw [data_mk, splitChars_joinChars]
  · rw [List.map_map]
    have : (String.mk ∘ String.data) = id := funext fun s => mk_data s
    rw [this, List.map_id]
  · simpa using hne
  · intro l hl
    rcases List.mem_map.mp hl with ⟨s, hs, rfl⟩
    exact h s hs

theorem mem_jsSplitNL_no_newline (x : String) :
    ∀ s ∈ jsSplitNL x, '\n' ∉ s.data := by
  intro s hs
  rcases List.mem_map.mp hs with ⟨l, hl, rfl⟩
  exact mem_splitChars_no_newline x.data l hl

theorem digitChar_ne_newline (m : Nat) (hm : m < 10) : Nat.digitChar m ≠ '\n' := by
  revert hm
  revert m
  decide

theorem toDigitsCore_no_newline (fuel n : Nat) (ds : List Char)
    (hds : '\n' ∉ ds) : '\n' ∉ Nat.toDigitsCore 10 fuel n ds := by
  induction fuel generalizing n ds with
  | zero => simpa [Nat.toDigitsCore] using hds
  | succ fuel ih =>
    simp only [Nat.toDigitsCore]
    have hd : Nat.digitChar (n % 10) ≠ '\n' :=
      digitChar_ne_newline _ (Nat.mod_lt _ (by decide))
    have hcons : '\n' ∉ Nat.digitChar (n % 10) :: ds := by
      intro h
      rcases List.mem_cons.mp h with h | h
      · exact hd h.symm
      · exact hds h
    split
    · exact hcons
    · exact ih (n / 10) _ hcons

theorem repr_no_newline (n : Nat) : '\n' ∉ (Nat.repr n).data := by
  have : (Nat.repr n).data = Nat.toDigits 10 n := rfl
  rw [this]
  unfold Nat.toDigits
  exact toDigitsCore_no_newline _ _ _ (by simp)

/-! ## Lemmas: structure of the modelled patches -/

theorem no_newline_append (a b : String) (ha : '\n' ∉ a.data)
    (hb : '\n' ∉ b.data) : '\n' ∉ (a ++ b).data := by
  rw [data_append]
  intro h
  rcases List.mem_append.mp h with h | h
  · exact ha h
  · exact hb h

theorem mem_textLines_no_newline (s : String) :
    ∀ l ∈ textLines s, '\n' ∉ l.data := by
  unfold textLines
  split
  · simp
  · exact mem_jsSplitNL_no_newline s

theorem hunkHeader_no_newline (olds news : List String) :
    '\n' ∉ (hunkHeader olds news).data := by
  unfold hunkHeader
  refine no_newline_append _ _ (no_newline_append _ _ (no_newline_append _ _
    (no_newline_append _ _ (by decide) (repr_no_newline _)) (by decide))
    (repr_no_newline _)) (by decide)

theorem mem_diffBody_no_newline (olds news : List String)
    (ho : ∀ l ∈ olds, '\n' ∉ l.data) (hn : ∀ l ∈ news, '\n' ∉ l.data) :
    ∀ l ∈ diffBody olds news, '\n' ∉ l.data := by
  intro l hl
  unfold diffBody at hl
  simp only [List.mem_append] at hl
  rcases hl with ((h | h) | h) | h <;>
    rcases List.mem_map.mp h with ⟨x, hx, rfl⟩
  · exact no_newline_append _ _ (by decide) (ho x (List.mem_of_mem_take hx))
  · exact no_newline_append _ _ (by decide)
      (ho x (List.mem_of_mem_drop (List.mem_of_mem_take hx)))
  · exact no_newline_append _ _ (by decide)
      (hn x (List.mem_of_mem_drop (List.mem_of_mem_take hx)))
  · exact no_newline_append _ _ (by decide)
      (ho x (List.mem_of_mem_drop (List.mem_of_mem_drop hx)))

theorem mem_createPatchLines_no_newline (path old new : String)
    (hp : '\n' ∉ path.data) :
    ∀ l ∈ createPatchLines path old new, '\n' ∉ l.data := by
  intro l hl
  unfold createPatchLines at hl
  rcases List.mem_cons.mp hl with h | h
  · exact h ▸ no_newline_append _ _ (by decide) hp
  rcases List.mem_cons.mp h with h | h
  · exact h ▸ no_newline_append _ _ (by decide) hp
  rcases List.mem_cons.mp h with h | h
  · exact h ▸ hunkHeader_no_newline _ _
  · exact mem_diffBody_no_newline _ _
      (mem_textLines_no_newline old) (mem_textLines_no_newline new) l h

/-- After `removeNoiseFromPatch`, the stored diff consists of exactly the hunk
lines of the generated patch: the two label header lines are gone. -/
theorem stored_diff_lines (path old new : String) (hp : '\n' ∉ path.data) :
    jsSplitNL (removeNoiseFromPatch (createPatch path old new)) =
      hunkHeader (textLines old) (textLines new)
        :: diffBody (textLines old) (textLines new) := by
  unfold removeNoiseFromPatch createPatch
  rw [jsSplitNL_joinNL _ (by simp [createPatchLines])
    (mem_createPatchLines_no_newline path old new hp)]
  unfold createPatchLines
  simp only [List.drop_succ_cons, List.drop_zero]
  rw [jsSplitNL_joinNL]
  · simp
  · intro s hs
    rcases List.mem_cons.mp hs with h | h
    · exact h ▸ hunkHeader_no_newline _ _
    · exact mem_diffBody_no_newline _ _
        (mem_textLines_no_newline old) (mem_textLines_no_newline new) s h

theorem commonPrefixLen_comm (a b : List String) :
    commonPrefixLen a b = commonPrefixLen b a := by
  induction a generalizing b with
  | nil => cases b <;> rfl
  | cons x xs ih =>
    cases b with
    | nil => rfl
    | cons y ys =>
      unfold commonPrefixLen
      rcases eq_or_ne x y with h | h
      · simp [h, ih ys]
      · simp [h, Ne.symm h]

theorem commonSuffixLen_comm (a b : List String) :
    commonSuffixLen a b = commonSuffixLen b a := by
  unfold commonSuffixLen
  exact commonPrefixLen_comm _ _

/-- The middle deletion block of the modelled diff body. -/
def midDel (olds news : List String) : List String :=
  let p := commonPrefixLen olds news
  let ol := olds.drop p
  let nl := news.drop p
  ol.take (ol.length - commonSuffixLen ol nl)

/-- The middle addition block of the modelled diff body. -/
def midAdd (olds news : List String) : List String :=
  let p := commonPrefixLen olds news
  let ol := olds.drop p
  let nl := news.drop p
  nl.take (nl.length - commonSuffixLen ol nl)

theorem diffBody_decomp (olds news : List String) :
    diffBody olds news =
      (olds.take (commonPrefixLen olds news)).map (fun l => " " ++ l)
        ++ (midDel olds news).map (fun l => "-" ++ l)
        ++ (midAdd olds news).map (fun l => "+" ++ l)
        ++ ((olds.drop (commonPrefixLen olds news)).drop
              ((olds.drop (commonPrefixLen olds news)).length -
                commonSuffixLen (olds.drop (commonPrefixLen olds news))
                  (news.drop (commonPrefixLen olds news)))).map
            (fun l => " " ++ l) := rfl

theorem midAdd_comm (olds news : List String) :
    midAdd news olds = midDel olds news := by
  simp only [midAdd, midDel]
  rw [commonPrefixLen_comm news olds, commonSuffixLen_comm
    (news.drop (commonPrefixLen olds news)) (olds.drop (commonPrefixLen olds news))]

theorem midDel_comm (olds news : List String) :
    midDel news olds = midAdd olds news := by
  simp only [midAdd, midDel]
  rw [commonPrefixLen_comm news olds, commonSuffixLen_comm
    (news.drop (commonPrefixLen olds news)) (olds.drop (commonPrefixLen olds news))]

/-! ## Lemmas: addition and deletion lines of stored diffs -/

theorem data_cons_of_append (a b : String) (c : Char) (rest : List Char)
    (h : a.data = c :: rest) : (a ++ b).data = c :: (rest ++ b.data) := by
  rw [data_append, h]
  rfl

theorem plusExtract_plus (l : String) : plusExtract ("+" ++ l) = some l := by
  unfold plusExtract
  rw [data_cons_of_append "+" l '+' [] rfl]
  simp [mk_data]

theorem plusExtract_minus (l : String) : plusExtract ("-" ++ l) = none := by
  unfold plusExtract
  rw [data_cons_of_append "-" l '-' [] rfl]
  simp

theorem plusExtract_space (l : String) : plusExtract (" " ++ l) = none := by
  unfold plusExtract
  rw [data_cons_of_append " " l ' ' [] rfl]
  simp

theorem hunkHeader_data (olds news : List String) :
    ∃ rest, (hunkHeader olds news).data = '@' :: rest := by
  unfold hunkHeader
  rw [data_append, data_append, data_append, data_append]
  exact ⟨_, rfl⟩

theorem plusExtract_hunk (olds news : List String) :
    plusExtract (hunkHeader olds news) = none := by
  obtain ⟨rest, h⟩ := hunkHeader_data olds news
  unfold plusExtract
  rw [h]
  simp

theorem minusExtract_plus (l : String) : minusExtract ("+" ++ l) = none := by
  unfold minusExtract
  rw [data_cons_of_append "+" l '+' [] rfl]
  simp

theorem minusExtract_minus (l : String) : minusExtract ("-" ++ l) = some l := by
  unfold minusExtract
  rw [data_cons_of_append "-" l '-' [] rfl]
  simp [mk_data]

theorem minusExtract_space (l : String) : minusExtract (" " ++ l) = none := by
  unfold minusExtract
  rw [data_cons_of_append " " l ' ' [] rfl]
  simp

theorem minusExtract_hunk (olds news : List String) :
    minusExtract (hunkHeader olds news) = none := by
  obtain ⟨rest, h⟩ := hunkHeader_data olds news
  unfold minusExtract
  rw [h]
  simp

theorem filterMap_some_chunk {f : String → Option String} {g : String → String}
    (h : ∀ a, f (g a) = some a) (L : List String) :
    (L.map g).filterMap f = L := by
  induction L with
  | nil => rfl
  | cons a t ih => simp [h, ih]

theorem filterMap_none_chunk {f : String → Option String} {g : String → String}
    (h : ∀ a, f (g a) = none) (L : List String) :
    (L.map g).filterMap f = [] := by
  induction L with
  | nil => rfl
  | cons a t ih => simp [h, ih]

theorem plusLines_stored (p x y : String) (hp : '\n' ∉ p.data) :
    plusLines (removeNoiseFromPatch (createPatch p x y)) =
      midAdd (textLines x) (textLines y) := by
  unfold plusLines
  rw [stored_diff_lines p x y hp, diffBody_decomp]
  rw [List.filterMap_cons, plusExtract_hunk]
  simp only [List.filterMap_append,
    filterMap_none_chunk plusExtract_space,
    filterMap_none_chunk plusExtract_minus,
    filterMap_some_chunk plusExtract_plus]
  simp

theorem minusLines_stored (p x y : String) (hp : '\n' ∉ p.data) :
    minusLines (removeNoiseFromPatch (createPatch p x y)) =
      midDel (textLines x) (textLines y) := by
  unfold minusLines
  rw [stored_diff_lines p x y hp, diffBody_decomp]
  rw [List.filterMap_cons, minusExtract_hunk]
  simp only [List.filterMap_append,
    filterMap_none_chunk minusExtract_space,
    filterMap_none_chunk minusExtract_plus,
    filterMap_some_chunk minusExtract_minus]
  simp

theorem plusLines_stored_swap (p x y : String) (hp : '\n' ∉ p.data) :
    plusLines (removeNoiseFromPatch (createPatch p y x)) =
      minusLines (removeNoiseFromPatch (createPatch p x y)) := by
  rw [plusLines_stored p y x hp, minusLines_stored p x y hp, midAdd_comm]

theorem minusLines_stored_swap (p x y : String) (hp : '\n' ∉ p.data) :
    minusLines (removeNoiseFromPatch (createPatch p y x)) =
      plusLines (removeNoiseFromPatch (createPatch p x y)) := by
  rw [plusLines_stored p x y hp, minusLines_stored p y x hp, midDel_comm]

/-! ## Lemmas: the classifier branch by branch -/

theorem map_dot (cp : String → String → String → String) (A B : Option Entry) :
    map cp "." A B = .ok none := rfl

theorem map_tree (cp : String → String → String → String) (p : String)
    (A B : Option Entry)
    (h : Option.map Entry.type A = some EntryType.tree
      ∨ Option.map Entry.type B = some EntryType.tree) :
    map cp p A B = .ok none := by
  unfold map
  by_cases hp : p = "."
  · rw [if_pos hp]
  · rw [if_neg hp, if_pos h]

theorem map_equal (cp : String → String → String → String) (p : String)
    (eA eB : Entry) (h : eA.oid = eB.oid) :
    map cp p (some eA) (some eB) = .ok none := by
  unfold map
  split
  · rfl
  split
  · rfl
  · simp [h]

theorem map_add (cp : String → String → String → String) (p : String)
    (eB : Entry) (hp : p ≠ ".") (ht : eB.type ≠ EntryType.tree) :
    map cp p none (some eB) = .ok (some
      { diff := removeNoiseFromPatch (cp p "" (eB.content.getD ""))
        new_path := some p
        old_path := none
        a_mode := none
        b_mode := if truthy (some eB.mode) then some (jsString (some eB.mode)) else none
        new_file := true
        renamed_file := false
        deleted_file := false }) := by
  simp [map, hp, ht, truthy]

theorem map_remove (cp : String → String → String → String) (p : String)
    (eA : Entry) (hp : p ≠ ".") (ht : eA.type ≠ EntryType.tree) :
    map cp p (some eA) none = .ok (some
      { diff := removeNoiseFromPatch (cp p (eA.content.getD "") "")
        new_path := none
        old_path := some p
        a_mode := if truthy (some eA.mode) then some (jsString (some eA.mode)) else none
        b_mode := none
        new_file := false
        renamed_file := false
        deleted_file := true }) := by
  simp [map, hp, ht, truthy]

theorem map_modify (cp : String → String → String → String) (p : String)
    (eA eB : Entry) (hp : p ≠ ".") (hta : eA.type ≠ EntryType.tree)
    (htb : eB.type ≠ EntryType.tree) (hne : eA.oid ≠ eB.oid) :
    map cp p (some eA) (some eB) = .ok (some
      { diff := removeNoiseFromPatch (cp p (eA.content.getD "") (eB.content.getD ""))
        new_path := some p
        old_path := some p
        a_mode := if truthy (some eA.mode) then some (jsString (some eA.mode)) else none
        b_mode := if truthy (some eB.mode) then some (jsString (some eA.mode)) else none
        new_file := false
        renamed_file := false
        deleted_file := false }) := by
  simp [map, hp, hta, htb, hne]

theorem map_error (cp : String → String → String → String) (p : String)
    (hp : p ≠ ".") :
    map cp p none none =
      .error ("Something weird happened while trying to walk on: " ++ p) := by
  simp [map, hp]

/-! ## Lemmas: inversion of the classifier -/

/-- Any record the classifier emits came from exactly one of the add, remove or
modify branches, with the fields the source assigns there. -/
theorem map_ok_some_inv (cp : String → String → String → String) (p : String)
    (A B : Option Entry) (r : ChangeRecord) (h : map cp p A B = .ok (some r)) :
    p ≠ "." ∧
    ((∃ eB, A = none ∧ B = some eB ∧ eB.type ≠ EntryType.tree ∧
        r = { diff := removeNoiseFromPatch (cp p "" (eB.content.getD ""))
              new_path := some p
              old_path := none
              a_mode := none
              b_mode := if truthy (some eB.mode) then some (jsString (some eB.mode)) else none
              new_file := true
              renamed_file := false
              deleted_file := false })
      ∨ (∃ eA, A = some eA ∧ B = none ∧ eA.type ≠ EntryType.tree ∧
        r = { diff := removeNoiseFromPatch (cp p (eA.content.getD "") "")
              new_path := none
              old_path := some p
              a_mode := if truthy (some eA.mode) then some (jsString (some eA.mode)) else none
              b_mode := none
              new_file := false
              renamed_file := false
              deleted_file := true })
      ∨ (∃ eA eB, A = some eA ∧ B = some eB ∧ eA.type ≠ EntryType.tree ∧
          eB.type ≠ EntryType.tree ∧ eA.oid ≠ eB.oid ∧
        r = { diff := removeNoiseFromPatch
                (cp p (eA.content.getD "") (eB.content.getD ""))
              new_path := some p
              old_path := some p
              a_mode := if truthy (some eA.mode) then some (jsString (some eA.mode)) else none
              b_mode := if truthy (some eB.mode) then some (jsString (some eA.mode)) else none
              new_file := false
              renamed_file := false
              deleted_file := false })) := by
  have hp : p ≠ "." := by
    intro hp
    subst hp
    rw [map_dot] at h
    simp at h
  refine ⟨hp, ?_⟩
  cases A with
  | none =>
    cases B with
    | none =>
      rw [map_error cp p hp] at h
      simp at h
    | some eB =>
      by_cases ht : eB.type = EntryType.tree
      · rw [map_tree cp p none (some eB) (Or.inr (by simp [ht]))] at h
        simp at h
      · rw [map_add cp p eB hp ht] at h
        simp only [Except.ok.injEq, Option.some.injEq] at h
        exact Or.inl ⟨eB, rfl, rfl, ht, h.symm⟩
  | some eA =>
    by_cases hta : eA.type = EntryType.tree
    · rw [map_tree cp p (some eA) B (Or.inl (by simp [hta]))] at h
      simp at h
    cases B with
    | none =>
      rw [map_remove cp p eA hp hta] at h
      simp only [Except.ok.injEq, Option.some.injEq] at h
      exact Or.inr (Or.inl ⟨eA, rfl, rfl, hta, h.symm⟩)
    | some eB =>
      by_cases htb : eB.type = EntryType.tree
      · rw [map_tree cp p (some eA) (some eB) (Or.inr (by simp [htb]))] at h
        simp at h
      by_cases hoid : eA.oid = eB.oid
      · rw [map_equal cp p eA eB hoid] at h
        simp at h
      · rw [map_modify cp p eA eB hp hta htb hoid] at h
        simp only [Except.ok.injEq, Option.some.injEq] at h
        exact Or.inr (Or.inr ⟨eA, eB, rfl, rfl, hta, htb, hoid, h.symm⟩)

/-! ## Lemmas: the path order is total, transitive and antisymmetric -/

theorem charsLe_total (a : List Char) :
    ∀ b, charsLe a b = true ∨ charsLe b a = true := by
  induction a with
  | nil => intro b; left; cases b <;> rfl
  | cons x xs ih =>
    intro b
    cases b with
    | nil => right; rfl
    | cons y ys =>
      rcases lt_trichotomy x y with hlt | heq | hgt
      · left; simp [charsLe, hlt]
      · subst heq
        rcases ih ys with h | h
        · left; simp [charsLe, lt_irrefl, h]
        · right; simp [charsLe, lt_irrefl, h]
      · right; simp [charsLe, hgt]

theorem eq_of_not_lt_not_lt {x y : Char} (h1 : ¬ x < y) (h2 : ¬ y < x) : x = y := by
  rcases lt_trichotomy x y with h | h | h
  · exact absurd h h1
  · exact h
  · exact absurd h h2

theorem charsLe_trans (a : List Char) :
    ∀ b c, charsLe a b = true → charsLe b c = true → charsLe a c = true := by
  induction a with
  | nil => intro b c _ _; rfl
  | cons x xs ih =>
    intro b c hab hbc
    cases b with
    | nil => simp [charsLe] at hab
    | cons y ys =>
      cases c with
      | nil => simp [charsLe] at hbc
      | cons z zs =>
        simp only [charsLe] at hab hbc ⊢
        by_cases hxy : x < y
        · by_cases hyz : y < z
          · simp [lt_trans hxy hyz]
          · by_cases hzy : z < y
            · rw [if_neg hyz, if_pos hzy] at hbc
              exact absurd hbc (by decide)
            · have : y = z := eq_of_not_lt_not_lt hyz hzy
              subst this
              simp [hxy]
        · by_cases hyx : y < x
          · rw [if_neg hxy, if_pos hyx] at hab
            exact absurd hab (by decide)
          · have hxey : x = y := eq_of_not_lt_not_lt hxy hyx
            subst hxey
            by_cases hyz : x < z
            · simp [hyz]
            · by_cases hzy : z < x
              · rw [if_neg hyz, if_pos hzy] at hbc
                exact absurd hbc (by decide)
              · have : x = z := eq_of_not_lt_not_lt hyz hzy
                subst this
                rw [if_neg hyz, if_neg hyz] at hab hbc ⊢
                exact ih ys zs hab hbc

theorem charsLe_antisymm (a : List Char) :
    ∀ b, charsLe a b = true → charsLe b a = true → a = b := by
  induction a with
  | nil =>
    intro b _ hba
    cases b with
    | nil => rfl
    | cons y ys => simp [charsLe] at hba
  | cons x xs ih =>
    intro b hab hba
    cases b with
    | nil => simp [charsLe] at hab
    | cons y ys =>
      simp only [charsLe] at hab hba
      by_cases hxy : x < y
      · rw [if_neg (asymm hxy), if_pos hxy] at hba
        exact absurd hba (by decide)
      · by_cases hyx : y < x
        · rw [if_neg hxy, if_pos hyx] at hab
          exact absurd hab (by decide)
        · have hxey : x = y := eq_of_not_lt_not_lt hxy hyx
          subst hxey
          rw [if_neg hxy, if_neg hxy] at hab hba
          rw [ih ys hab hba]

instance : IsTotal String (fun a b => strLe a b = true) :=
  ⟨fun a b => charsLe_total a.data b.data⟩

instance : IsTrans String (fun a b => strLe a b = true) :=
  ⟨fun a b c => charsLe_trans a.data b.data c.data⟩

instance : IsAntisymm String (fun a b => strLe a b = true) := by
  refine ⟨fun a b h1 h2 => ?_⟩
  have h := charsLe_antisymm a.data b.data h1 h2
  have h2m : String.mk a.data = String.mk b.data := congrArg String.mk h
  rwa [mk_data, mk_data] at h2m

/-! ## Lemmas: the walker -/

theorem lookup_isSome_of_mem_keys (p : String) (t : List (String × Entry))
    (h : p ∈ keys t) : (List.lookup p t).isSome := by
  induction t with
  | nil => simp [keys] at h
  | cons x xs ih =>
    by_cases he : p = x.1
    · have hb : (p == x.1) = true := beq_iff_eq.mpr he
      simp [List.lookup, hb]
    · have hb : (p == x.1) = false := beq_eq_false_iff_ne.mpr he
      have h1 : p ∈ keys xs := by
        rcases List.mem_cons.mp h with h2 | h2
        · exact absurd h2 he
        · exact h2
      simpa [List.lookup, hb] using ih h1

theorem mem_keys_of_lookup (p : String) (t : List (String × Entry)) (e : Entry)
    (h : List.lookup p t = some e) : p ∈ keys t := by
  induction t with
  | nil => simp [List.lookup] at h
  | cons x xs ih =>
    by_cases he : p = x.1
    · simp [keys, he]
    · have hb : (p == x.1) = false := beq_eq_false_iff_ne.mpr he
      simp only [List.lookup, hb] at h
      exact List.mem_cons_of_mem _ (ih h)

theorem lookup_eq_none_of_not_mem (p : String) (t : List (String × Entry))
    (h : p ∉ keys t) : List.lookup p t = none := by
  cases hl : List.lookup p t with
  | none => rfl
  | some e => exact absurd (mem_keys_of_lookup p t e hl) h

theorem mem_unionPaths (q : String) (ta tb : List (String × Entry)) :
    q ∈ unionPaths ta tb ↔ q ∈ keys ta ++ keys tb := by
  unfold unionPaths
  rw [List.mem_dedup]
  exact (List.perm_insertionSort _ _).mem_iff

theorem nodup_unionPaths (ta tb : List (String × Entry)) :
    (unionPaths ta tb).Nodup := List.nodup_dedup _

theorem unionPaths_comm (ta tb : List (String × Entry)) :
    unionPaths tb ta = unionPaths ta tb := by
  unfold unionPaths
  congr 1
  apply List.eq_of_perm_of_sorted (r := fun a b => strLe a b = true)
  · exact (List.perm_insertionSort _ _).trans
      ((List.perm_append_comm).trans (List.perm_insertionSort _ _).symm)
  · exact List.sorted_insertionSort _ _
  · exact List.sorted_insertionSort _ _

theorem walkFrom_append (cp : String → String → String → String)
    (ta tb : List (String × Entry)) (xs ys : List String) (rs : List ChangeRecord) :
    walkFrom cp ta tb (xs ++ ys) = .ok rs ↔
      ∃ r1 r2, walkFrom cp ta tb xs = .ok r1 ∧ walkFrom cp ta tb ys = .ok r2 ∧
        rs = r1 ++ r2 := by
  induction xs generalizing rs with
  | nil =>
    simp only [List.nil_append, walkFrom]
    constructor
    · intro h
      exact ⟨[], rs, rfl, h, rfl⟩
    · rintro ⟨r1, r2, h1, h2, rfl⟩
      simp only [Except.ok.injEq] at h1
      subst h1
      simpa using h2
  | cons x xs ih =>
    rw [List.cons_append]
    cases hm : map cp x (List.lookup x ta) (List.lookup x tb) with
    | error e =>
      simp only [walkFrom, hm]
      constructor
      · intro h
        simp at h
      · rintro ⟨r1, r2, h1, h2, rfl⟩
        simp at h1
    | ok o =>
      cases o with
      | none =>
        simp only [walkFrom, hm]
        exact ih rs
      | some r =>
        simp only [walkFrom, hm]
        cases hrest : walkFrom cp ta tb (xs ++ ys) with
        | error e =>
          simp only [hrest]
          constructor
          · intro h
            simp at h
          · rintro ⟨r1, r2, h1, h2, rfl⟩
            cases hxs : walkFrom cp ta tb xs with
            | error e2 =>
              simp only [hxs] at h1
              simp at h1
            | ok rxs =>
              have heq : walkFrom cp ta tb (xs ++ ys) = .ok (rxs ++ r2) :=
                (ih _).mpr ⟨rxs, r2, hxs, h2, rfl⟩
              rw [hrest] at heq
              simp at heq
        | ok rest =>
          simp only [hrest]
          rcases (ih rest).mp hrest with ⟨r1, r2, h1, h2, hsplit⟩
          constructor
          · intro h
            simp only [Except.ok.injEq] at h
            refine ⟨r :: r1, r2, ?_, h2, ?_⟩
            · simp [walkFrom, hm, h1]
            · rw [← h, hsplit]
              rfl
          · rintro ⟨r1x, r2x, h1x, h2x, rfl⟩
            cases hxs : walkFrom cp ta tb xs with
            | error e2 =>
              simp only [hxs] at h1x
              simp at h1x
            | ok rxs =>
              simp only [hxs, Except.ok.injEq] at h1x
              have heq : walkFrom cp ta tb (xs ++ ys) = .ok (rxs ++ r2x) :=
                (ih _).mpr ⟨rxs, r2x, hxs, h2x, rfl⟩
              rw [hrest] at heq
              simp only [Except.ok.injEq] at heq
              rw [← h1x, List.cons_append, ← heq]

theorem map_record_paths (cp : String → String → String → String) (q : String)
    (A B : Option Entry) (r : ChangeRecord)
    (h : map cp q A B = .ok (some r)) :
    (r.new_path = some q ∨ r.new_path = none) ∧
      (r.old_path = some q ∨ r.old_path = none) := by
  rcases (map_ok_some_inv cp q A B r h).2 with
    ⟨eB, _, _, _, rfl⟩ | ⟨eA, _, _, _, rfl⟩ | ⟨eA, eB, _, _, _, _, _, rfl⟩ <;> simp

theorem recordsFor_cons (p : String) (r : ChangeRecord) (rs : List ChangeRecord) :
    recordsFor p (r :: rs) =
      if (r.new_path == some p || r.old_path == some p) = true
        then r :: recordsFor p rs else recordsFor p rs := by
  unfold recordsFor
  rw [List.filter_cons]

theorem recordsFor_nil_of_not_mem (cp : String → String → String → String)
    (ta tb : List (String × Entry)) (p : String) (ps : List String)
    (hp : p ∉ ps) (rs : List ChangeRecord)
    (h : walkFrom cp ta tb ps = .ok rs) : recordsFor p rs = [] := by
  induction ps generalizing rs with
  | nil =>
    simp only [walkFrom, Except.ok.injEq] at h
    subst h
    rfl
  | cons q qs ih =>
    have hq : q ≠ p := fun he => hp (he ▸ List.mem_cons_self q qs)
    have hps : p ∉ qs := fun he => hp (List.mem_cons_of_mem q he)
    cases hm : map cp q (List.lookup q ta) (List.lookup q tb) with
    | error e =>
      simp only [walkFrom, hm] at h
      simp at h
    | ok o =>
      cases o with
      | none =>
        simp only [walkFrom, hm] at h
        exact ih hps rs h
      | some r =>
        simp only [walkFrom, hm] at h
        cases hrest : walkFrom cp ta tb qs with
        | error e =>
          rw [hrest] at h
          simp at h
        | ok rest =>
          rw [hrest] at h
          simp only [Except.ok.injEq] at h
          subst h
          rw [recordsFor_cons]
          have hpaths := map_record_paths cp q _ _ r hm
          have hcond : (r.new_path == some p || r.old_path == some p) = false := by
            rcases hpaths with ⟨hn | hn, ho | ho⟩ <;>
              simp [hn, ho, hq]
          rw [hcond]
          simp only [Bool.false_eq_true, if_false]
          exact ih hps rest hrest

theorem walkFrom_self_nil (cp : String → String → String → String)
    (ta : List (String × Entry)) (ps : List String)
    (h : ∀ q ∈ ps, q = "." ∨ (List.lookup q ta).isSome) :
    walkFrom cp ta ta ps = .ok [] := by
  induction ps with
  | nil => rfl
  | cons q qs ih =>
    have hq := h q (List.mem_cons_self q qs)
    have htail : walkFrom cp ta ta qs = .ok [] :=
      ih (fun x hx => h x (List.mem_cons_of_mem q hx))
    have hnone : map cp q (List.lookup q ta) (List.lookup q ta) = .ok none := by
      rcases hq with hq | hq
      · subst hq
        exact map_dot cp _ _
      · cases hl : List.lookup q ta with
        | none => rw [hl] at hq; simp at hq
        | some e =>
          by_cases ht : e.type = EntryType.tree
          · exact map_tree cp q _ _ (Or.inl (by simp [ht]))
          · exact map_equal cp q e e rfl
    simp only [walkFrom, hnone]
    exact htail

/-! ## Lemmas: mirror symmetry of the classifier -/

theorem map_mirror_error (cp : String → String → String → String) (p : String)
    (A B : Option Entry) (e : String) (h : map cp p A B = .error e) :
    map cp p B A = .error e := by
  have hp : p ≠ "." := by
    intro hp
    subst hp
    rw [map_dot] at h
    simp at h
  by_cases htA : Option.map Entry.type A = some EntryType.tree
  · rw [map_tree cp p A B (Or.inl htA)] at h
    simp at h
  by_cases htB : Option.map Entry.type B = some EntryType.tree
  · rw [map_tree cp p A B (Or.inr htB)] at h
    simp at h
  cases A with
  | some eA =>
    have hta : eA.type ≠ EntryType.tree := fun he => htA (by simp [he])
    cases B with
    | none =>
      rw [map_remove cp p eA hp hta] at h
      simp at h
    | some eB =>
      have htb : eB.type ≠ EntryType.tree := fun he => htB (by simp [he])
      by_cases hoid : eA.oid = eB.oid
      · rw [map_equal cp p eA eB hoid] at h
        simp at h
      · rw [map_modify cp p eA eB hp hta htb hoid] at h
        simp at h
  | none =>
    cases B with
    | some eB =>
      have htb : eB.type ≠ EntryType.tree := fun he => htB (by simp [he])
      rw [map_add cp p eB hp htb] at h
      simp at h
    | none =>
      rw [map_error cp p hp] at h
      simp only [Except.error.injEq] at h
      rw [map_error cp p hp, h]

theorem map_mirror_none (cp : String → String → String → String) (p : String)
    (A B : Option Entry) (h : map cp p A B = .ok none) :
    map cp p B A = .ok none := by
  by_cases hp : p = "."
  · subst hp
    exact map_dot cp _ _
  by_cases htA : Option.map Entry.type A = some EntryType.tree
  · exact map_tree cp p B A (Or.inr htA)
  by_cases htB : Option.map Entry.type B = some EntryType.tree
  · exact map_tree cp p B A (Or.inl htB)
  cases A with
  | none =>
    cases B with
    | none =>
      rw [map_error cp p hp] at h
      simp at h
    | some eB =>
      have htb : eB.type ≠ EntryType.tree := fun he => htB (by simp [he])
      rw [map_add cp p eB hp htb] at h
      simp at h
  | some eA =>
    have hta : eA.type ≠ EntryType.tree := fun he => htA (by simp [he])
    cases B with
    | none =>
      rw [map_remove cp p eA hp hta] at h
      simp at h
    | some eB =>
      have htb : eB.type ≠ EntryType.tree := fun he => htB (by simp [he])
      by_cases hoid : eA.oid = eB.oid
      · exact map_equal cp p eB eA hoid.symm
      · rw [map_modify cp p eA eB hp hta htb hoid] at h
        simp at h

theorem map_mirror_some (p : String) (A B : Option Entry) (r : ChangeRecord)
    (hnl : '\n' ∉ p.data) (h : map createPatch p A B = .ok (some r)) :
    ∃ s, map createPatch p B A = .ok (some s) ∧ mirrors r s = true := by
  rcases map_ok_some_inv createPatch p A B r h with ⟨hp, hcase⟩
  rcases hcase with ⟨eB, rfl, rfl, htb, rfl⟩ | ⟨eA, rfl, rfl, hta, rfl⟩ |
    ⟨eA, eB, rfl, rfl, hta, htb, hoid, rfl⟩
  · refine ⟨_, map_remove createPatch p eB hp htb, ?_⟩
    simp [mirrors]
  · refine ⟨_, map_add createPatch p eA hp hta, ?_⟩
    simp [mirrors]
  · refine ⟨_, map_modify createPatch p eB eA hp htb hta (Ne.symm hoid), ?_⟩
    simp only [mirrors]
    rw [plusLines_stored_swap p (eA.content.getD "") (eB.content.getD "") hnl]
    rw [minusLines_stored_swap p (eA.content.getD "") (eB.content.getD "") hnl]
    simp

theorem walkFrom_mirror (ta tb : List (String × Entry)) (ps : List String)
    (hnl : ∀ q ∈ ps, '\n' ∉ q.data) (rs ss : List ChangeRecord)
    (h1 : walkFrom createPatch ta tb ps = .ok rs)
    (h2 : walkFrom createPatch tb ta ps = .ok ss) :
    mirrorsList rs ss = true := by
  induction ps generalizing rs ss with
  | nil =>
    simp only [walkFrom, Except.ok.injEq] at h1 h2
    subst h1
    subst h2
    rfl
  | cons q qs ih =>
    have hnlq : '\n' ∉ q.data := hnl q (List.mem_cons_self q qs)
    have hnltail : ∀ x ∈ qs, '\n' ∉ x.data :=
      fun x hx => hnl x (List.mem_cons_of_mem q hx)
    cases hm : map createPatch q (List.lookup q ta) (List.lookup q tb) with
    | error e =>
      simp only [walkFrom, hm] at h1
      simp at h1
    | ok o =>
      cases o with
      | none =>
        have hm2 := map_mirror_none createPatch q _ _ hm
        simp only [walkFrom, hm] at h1
        simp only [walkFrom, hm2] at h2
        exact ih hnltail rs ss h1 h2
      | some r =>
        obtain ⟨s, hm2, hmir⟩ := map_mirror_some q _ _ r hnlq hm
        simp only [walkFrom, hm] at h1
        simp only [walkFrom, hm2] at h2
        cases hr1 : walkFrom createPatch ta tb qs with
        | error e =>
          rw [hr1] at h1
          simp at h1
        | ok rest1 =>
          rw [hr1] at h1
          simp only [Except.ok.injEq] at h1
          cases hr2 : walkFrom createPatch tb ta qs with
          | error e =>
            rw [hr2] at h2
            simp at h2
          | ok rest2 =>
            rw [hr2] at h2
            simp only [Except.ok.injEq] at h2
            subst h1
            subst h2
            simp only [mirrorsList, Bool.and_eq_true]
            exact ⟨hmir, ih hnltail rest1 rest2 hr1 hr2⟩

/-! ## Lemmas: further structure of stored diffs -/

theorem joinChars_splitChars (cs : List Char) : joinChars (splitChars cs) = cs := by
  induction cs with
  | nil => rfl
  | cons c cs ih =>
    simp only [splitChars]
    split
    · rename_i hc
      subst hc
      cases h : splitChars cs with
      | nil => exact absurd h (splitChars_ne_nil cs)
      | cons l ls =>
        rw [joinChars_cons_cons]
        simp only [List.nil_append]
        rw [← h, ih]
    · cases h : splitChars cs with
      | nil => exact absurd h (splitChars_ne_nil cs)
      | cons l ls =>
        simp only [List.modifyHead]
        cases ls with
        | nil =>
          simp only [joinChars]
          have h2 : joinChars (splitChars cs) = cs := ih
          rw [h] at h2
          simp only [joinChars] at h2
          rw [h2]
        | cons m ms =>
          rw [joinChars_cons_cons]
          have h2 : joinChars (splitChars cs) = cs := ih
          rw [h, joinChars_cons_cons] at h2
          rw [List.cons_append, h2]

theorem joinNL_jsSplitNL (s : String) : joinNL (jsSplitNL s) = s := by
  unfold joinNL jsSplitNL
  rw [List.map_map]
  have : (String.data ∘ String.mk) = id := funext fun l => rfl
  rw [this, List.map_id, joinChars_splitChars, mk_data]

theorem stored_diff_eq (path old new : String) (hp : '\n' ∉ path.data) :
    removeNoiseFromPatch (createPatch path old new) =
      joinNL (hunkHeader (textLines old) (textLines new)
        :: diffBody (textLines old) (textLines new)) := by
  have h := stored_diff_lines path old new hp
  have h2 := joinNL_jsSplitNL (removeNoiseFromPatch (createPatch path old new))
  rw [h] at h2
  exact h2.symm

theorem commonPrefixLen_nil_left (news : List String) :
    commonPrefixLen [] news = 0 := by
  cases news <;> rfl

theorem diffBody_nil_left (news : List String) :
    diffBody [] news = news.map (fun l => "+" ++ l) := by
  unfold diffBody
  simp only [commonPrefixLen_nil_left, List.drop_zero, List.take_zero,
    List.drop_nil, List.take_nil]
  have hs : commonSuffixLen [] news = 0 := by
    unfold commonSuffixLen
    simp only [List.reverse_nil]
    exact commonPrefixLen_nil_left _
  rw [hs]
  simp

/-! ## Claims -/

/-- C1: for every leaf (blob) path visited by the walk, the classification is
determined solely by comparing the two sides' content identities: both present
and equal gives no record; A absent and B present gives an add record; A
present and B absent gives a remove record; both present but different gives a
modify record.  The entries' modes and contents are universally quantified, so
they cannot influence the outcome. -/
theorem C1_classification (cp : String → String → String → String) (p : String)
    (eA eB : Entry) (hp : p ≠ ".") (hta : eA.type ≠ EntryType.tree)
    (htb : eB.type ≠ EntryType.tree) :
    (eA.oid = eB.oid → map cp p (some eA) (some eB) = .ok none) ∧
    (∃ r, map cp p none (some eB) = .ok (some r) ∧
      r.new_file = true ∧ r.deleted_file = false) ∧
    (∃ r, map cp p (some eA) none = .ok (some r) ∧
      r.deleted_file = true ∧ r.new_file = false) ∧
    (eA.oid ≠ eB.oid → ∃ r, map cp p (some eA) (some eB) = .ok (some r) ∧
      r.new_file = false ∧ r.deleted_file = false) := by
  refine ⟨fun h => map_equal cp p eA eB h, ?_, ?_, fun h => ?_⟩
  · exact ⟨_, map_add cp p eB hp htb, rfl, rfl⟩
  · exact ⟨_, map_remove cp p eA hp hta, rfl, rfl⟩
  · exact ⟨_, map_modify cp p eA eB hp hta htb h, rfl, rfl⟩

/-- Witness for C1 at concrete entries. -/
theorem C1_classification_witness :
    ("f.md" : String) ≠ "." ∧ sA.type ≠ EntryType.tree ∧ sC.type ≠ EntryType.tree ∧
    ((sA.oid = sC.oid → map createPatch "f.md" (some sA) (some sC) = .ok none) ∧
     (∃ r, map createPatch "f.md" none (some sC) = .ok (some r) ∧
       r.new_file = true ∧ r.deleted_file = false) ∧
     (∃ r, map createPatch "f.md" (some sA) none = .ok (some r) ∧
       r.deleted_file = true ∧ r.new_file = false) ∧
     (sA.oid ≠ sC.oid → ∃ r, map createPatch "f.md" (some sA) (some sC) = .ok (some r) ∧
       r.new_file = false ∧ r.deleted_file = false)) :=
  ⟨by decide, by decide, by decide,
    C1_classification createPatch "f.md" sA sC (by decide) (by decide) (by decide)⟩

/-- C2: every emitted change record stores as its diff field exactly the patch
text the diff tool produced for the old and new text labeled with the path,
with exactly its first two lines removed; on any patch text with more than two
lines, `removeNoiseFromPatch` keeps every remaining line unchanged. -/
theorem C2_stored_diff (cp : String → String → String → String) (p : String)
    (A B : Option Entry) (r : ChangeRecord) (h : map cp p A B = .ok (some r)) :
    r.diff = removeNoiseFromPatch
      (cp p ((A.bind Entry.content).getD "") ((B.bind Entry.content).getD "")) ∧
    ∀ patch, 2 < (jsSplitNL patch).length →
      jsSplitNL (removeNoiseFromPatch patch) = (jsSplitNL patch).drop 2 := by
  constructor
  · rcases (map_ok_some_inv cp p A B r h).2 with
      ⟨eB, rfl, rfl, _, rfl⟩ | ⟨eA, rfl, rfl, _, rfl⟩ |
      ⟨eA, eB, rfl, rfl, _, _, _, rfl⟩ <;> rfl
  · intro patch hlen
    unfold removeNoiseFromPatch
    apply jsSplitNL_joinNL
    · intro hnil
      have := congrArg List.length hnil
      simp only [List.length_drop, List.length_nil] at this
      omega
    · intro s hs
      exact mem_jsSplitNL_no_newline patch s (List.mem_of_mem_drop hs)

/-- Witness for C2 at a concrete modify record. -/
theorem C2_stored_diff_witness :
    map createPatch "f.md" (some sA) (some sC) = .ok (some
      { diff := removeNoiseFromPatch (createPatch "f.md" "a\nb\nc" "a\nx\nc")
        new_path := some "f.md"
        old_path := some "f.md"
        a_mode := some "5"
        b_mode := some "5"
        new_file := false
        renamed_file := false
        deleted_file := false }) ∧
    ({ diff := removeNoiseFromPatch (createPatch "f.md" "a\nb\nc" "a\nx\nc")
       new_path := some "f.md"
       old_path := some "f.md"
       a_mode := some "5"
       b_mode := some "5"
       new_file := false
       renamed_file := false
       deleted_file := false : ChangeRecord }).diff =
      removeNoiseFromPatch (createPatch "f.md"
        (((some sA).bind Entry.content).getD "")
        (((some sC).bind Entry.content).getD "")) ∧
    (2 < (jsSplitNL "l1\nl2\nl3\nl4").length ∧
      jsSplitNL (removeNoiseFromPatch "l1\nl2\nl3\nl4") =
        (jsSplitNL "l1\nl2\nl3\nl4").drop 2) := by
  have hmap : map createPatch "f.md" (some sA) (some sC) = .ok (some
      { diff := removeNoiseFromPatch (createPatch "f.md" "a\nb\nc" "a\nx\nc")
        new_path := some "f.md"
        old_path := some "f.md"
        a_mode := some "5"
        b_mode := some "5"
        new_file := false
        renamed_file := false
        deleted_file := false }) := by rfl
  have happ := C2_stored_diff createPatch "f.md" (some sA) (some sC) _ hmap
  exact ⟨hmap, happ.1, by decide, happ.2 "l1\nl2\nl3\nl4" (by decide)⟩

/-- C7: no record is ever produced for the synthetic root path "." nor for any
path at which either side's entry is a directory; the classifier returns
nothing in these cases. -/
theorem C7_root_and_trees_skipped (cp : String → String → String → String)
    (p : String) (A B : Option Entry)
    (h : p = "." ∨ Option.map Entry.type A = some EntryType.tree
      ∨ Option.map Entry.type B = some EntryType.tree) :
    map cp p A B = .ok none := by
  rcases h with h | h | h
  · subst h
    exact map_dot cp A B
  · exact map_tree cp p A B (Or.inl h)
  · exact map_tree cp p A B (Or.inr h)

/-- Witness for C7 at the root path and at a directory entry. -/
theorem C7_root_and_trees_skipped_witness :
    (("." : String) = "." ∧ map createPatch "." (some sA) (some sC) = .ok none) ∧
    (Option.map Entry.type (some sT) = some EntryType.tree ∧
      map createPatch "docs" (some sT) (some sA) = .ok none) :=
  ⟨⟨rfl, C7_root_and_trees_skipped createPatch "." (some sA) (some sC) (Or.inl rfl)⟩,
   ⟨by decide, C7_root_and_trees_skipped createPatch "docs" (some sT) (some sA)
      (Or.inr (Or.inl (by decide)))⟩⟩

/-- C8: every emitted change record has renamed_file false, a null new_path
only for deletions, a null old_path only for additions, and falls in exactly
one of the shapes add, remove, or modify (neither flag set and old_path equal
to new_path). -/
theorem C8_record_invariants (cp : String → String → String → String)
    (p : String) (A B : Option Entry) (r : ChangeRecord)
    (h : map cp p A B = .ok (some r)) :
    r.renamed_file = false ∧
    (r.new_path = none → r.deleted_file = true) ∧
    (r.old_path = none → r.new_file = true) ∧
    ((r.new_file = true ∧ r.deleted_file = false) ∨
     (r.new_file = false ∧ r.deleted_file = true) ∨
     (r.new_file = false ∧ r.deleted_file = false ∧ r.old_path = r.new_path ∧
       r.new_path = some p)) := by
  rcases (map_ok_some_inv cp p A B r h).2 with
    ⟨eB, rfl, rfl, _, rfl⟩ | ⟨eA, rfl, rfl, _, rfl⟩ |
    ⟨eA, eB, rfl, rfl, _, _, _, rfl⟩ <;> simp

/-- Witness for C8 at a concrete remove record. -/
theorem C8_record_invariants_witness :
    map createPatch "f.md" (some sA) none = .ok (some
      { diff := removeNoiseFromPatch (createPatch "f.md" "a\nb\nc" "")
        new_path := none
        old_path := some "f.md"
        a_mode := some "5"
        b_mode := none
        new_file := false
        renamed_file := false
        deleted_file := true }) ∧
    (({ diff := removeNoiseFromPatch (createPatch "f.md" "a\nb\nc" "")
        new_path := none
        old_path := some "f.md"
        a_mode := some "5"
        b_mode := none
        new_file := false
        renamed_file := false
        deleted_file := true : ChangeRecord }).renamed_file = false ∧
      (({ diff := removeNoiseFromPatch (createPatch "f.md" "a\nb\nc" "")
          new_path := none
          old_path := some "f.md"
          a_mode := some "5"
          b_mode := none
          new_file := false
          renamed_file := false
          deleted_file := true : ChangeRecord }).new_path = none →
        ({ diff := removeNoiseFromPatch (createPatch "f.md" "a\nb\nc" "")
           new_path := none
           old_path := some "f.md"
           a_mode := some "5"
           b_mode := none
           new_file := false
           renamed_file := false
           deleted_file := true : ChangeRecord }).deleted_file = true)) := by
  have hmap : map createPatch "f.md" (some sA) none = .ok (some
      { diff := removeNoiseFromPatch (createPatch "f.md" "a\nb\nc" "")
        new_path := none
        old_path := some "f.md"
        a_mode := some "5"
        b_mode := none
        new_file := false
        renamed_file := false
        deleted_file := true }) := by rfl
  have happ := C8_record_invariants createPatch "f.md" (some sA) none _ hmap
  exact ⟨hmap, happ.1, happ.2.1⟩

/-- C4 counterexample: for a remove record the b_mode field is NOT populated
from the A-side entry's mode — the source guards the value with the B-side
mode, which is always absent for a removal, so b_mode is null even though the
A-side mode (5) would encode as "5". -/
theorem C4_counterexample :
    ((map createPatch "f.md" (some sA) none).toOption.bind id).map
        ChangeRecord.b_mode = some none ∧
    ((map createPatch "f.md" (some sA) none).toOption.bind id).map
        ChangeRecord.deleted_file = some true ∧
    truthy (some sA.mode) = true ∧
    (some (jsString (some sA.mode)) : Option String) ≠ none := by
  refine ⟨rfl, rfl, rfl, by decide⟩

/-- C4 (amended): for add records b_mode is the B-side mode string (null when
the B-side mode is absent or zero); for modify records b_mode is null when
the B-side mode is absent or zero and otherwise is the decimal string of the
A-side mode; for remove records b_mode is always null; a_mode is always the
A-side mode string. -/
theorem C4_b_mode_amended (cp : String → String → String → String) (p : String)
    (A B : Option Entry) (r : ChangeRecord) (h : map cp p A B = .ok (some r)) :
    (r.new_file = true →
      r.b_mode = if truthy (Option.map Entry.mode B)
        then some (jsString (Option.map Entry.mode B)) else none) ∧
    (r.new_file = false ∧ r.deleted_file = false →
      r.b_mode = if truthy (Option.map Entry.mode B)
        then some (jsString (Option.map Entry.mode A)) else none) ∧
    (r.deleted_file = true → r.b_mode = none) ∧
    r.a_mode = (if truthy (Option.map Entry.mode A)
      then some (jsString (Option.map Entry.mode A)) else none) := by
  rcases (map_ok_some_inv cp p A B r h).2 with
    ⟨eB, rfl, rfl, _, rfl⟩ | ⟨eA, rfl, rfl, _, rfl⟩ |
    ⟨eA, eB, rfl, rfl, _, _, _, rfl⟩ <;> simp [truthy]

/-- Witness for the amended C4 at a concrete modify record. -/
theorem C4_b_mode_amended_witness :
    map createPatch "f.md" (some sA) (some sC) = .ok (some
      { diff := removeNoiseFromPatch (createPatch "f.md" "a\nb\nc" "a\nx\nc")
        new_path := some "f.md"
        old_path := some "f.md"
        a_mode := some "5"
        b_mode := some "5"
        new_file := false
        renamed_file := false
        deleted_file := false }) ∧
    (({ diff := removeNoiseFromPatch (createPatch "f.md" "a\nb\nc" "a\nx\nc")
        new_path := some "f.md"
        old_path := some "f.md"
        a_mode := some "5"
        b_mode := some "5"
        new_file := false
        renamed_file := false
        deleted_file := false : ChangeRecord }).new_file = false ∧
      ({ diff := removeNoiseFromPatch (createPatch "f.md" "a\nb\nc" "a\nx\nc")
         new_path := some "f.md"
         old_path := some "f.md"
         a_mode := some "5"
         b_mode := some "5"
         new_file := false
         renamed_file := false
         deleted_file := false : ChangeRecord }).deleted_file = false →
      ({ diff := removeNoiseFromPatch (createPatch "f.md" "a\nb\nc" "a\nx\nc")
         new_path := some "f.md"
         old_path := some "f.md"
         a_mode := some "5"
         b_mode := some "5"
         new_file := false
         renamed_file := false
         deleted_file := false : ChangeRecord }).b_mode =
        if truthy (Option.map Entry.mode (some sC))
          then some (jsString (Option.map Entry.mode (some sA))) else none) := by
  have hmap : map createPatch "f.md" (some sA) (some sC) = .ok (some
      { diff := removeNoiseFromPatch (createPatch "f.md" "a\nb\nc" "a\nx\nc")
        new_path := some "f.md"
        old_path := some "f.md"
        a_mode := some "5"
        b_mode := some "5"
        new_file := false
        renamed_file := false
        deleted_file := false }) := by rfl
  have happ := C4_b_mode_amended createPatch "f.md" (some sA) (some sC) _ hmap
  exact ⟨hmap, happ.2.1⟩

/-- C5: the classifier fails with the integrity error exactly when both sides'
content identities are absent at a visited leaf path, and in that case the
whole walk aborts with that error, emitting no record at all for the path. -/
theorem C5_integrity_error (cp : String → String → String → String)
    (p : String) (A B : Option Entry) (hp : p ≠ ".")
    (hta : Option.map Entry.type A ≠ some EntryType.tree)
    (htb : Option.map Entry.type B ≠ some EntryType.tree) :
    ((map cp p A B =
        .error ("Something weird happened while trying to walk on: " ++ p)) ↔
      (Option.map Entry.oid A = none ∧ Option.map Entry.oid B = none)) ∧
    (∀ e (ps : List String) (ta tb : List (String × Entry)),
      map cp p (List.lookup p ta) (List.lookup p tb) = .error e →
      walkFrom cp ta tb (p :: ps) = .error e) := by
  constructor
  · constructor
    · intro h
      cases A with
      | some eA =>
        have hta2 : eA.type ≠ EntryType.tree := fun he => hta (by simp [he])
        cases B with
        | none =>
          rw [map_remove cp p eA hp hta2] at h
          simp at h
        | some eB =>
          have htb2 : eB.type ≠ EntryType.tree := fun he => htb (by simp [he])
          by_cases hoid : eA.oid = eB.oid
          · rw [map_equal cp p eA eB hoid] at h
            simp at h
          · rw [map_modify cp p eA eB hp hta2 htb2 hoid] at h
            simp at h
      | none =>
        cases B with
        | some eB =>
          have htb2 : eB.type ≠ EntryType.tree := fun he => htb (by simp [he])
          rw [map_add cp p eB hp htb2] at h
          simp at h
        | none => exact ⟨rfl, rfl⟩
    · rintro ⟨hA, hB⟩
      have hA2 : A = none := by cases A <;> simp_all
      have hB2 : B = none := by cases B <;> simp_all
      subst hA2
      subst hB2
      exact map_error cp p hp
  · intro e ps ta tb h
    simp [walkFrom, h]

/-- Witness for C5 with both sides absent at a leaf path. -/
theorem C5_integrity_error_witness :
    ("ghost.md" : String) ≠ "." ∧
    ((map createPatch "ghost.md" none none =
        .error ("Something weird happened while trying to walk on: " ++ "ghost.md")) ↔
      (Option.map Entry.oid (none : Option Entry) = none ∧
        Option.map Entry.oid (none : Option Entry) = none)) ∧
    walkFrom createPatch [] [] ["ghost.md"] =
      .error ("Something weird happened while trying to walk on: " ++ "ghost.md") := by
  have happ := C5_integrity_error createPatch "ghost.md" none none
    (by decide) (by simp) (by simp)
  refine ⟨by decide, happ.1, ?_⟩
  exact happ.2 _ [] [] [] (happ.1.mpr ⟨rfl, rfl⟩)

/-- C6: a path whose content identity is equal on both sides produces no
record even when the two sides' modes differ, and walking two identical trees
returns the empty record list. -/
theorem C6_equal_no_record :
    (∀ (cp : String → String → String → String) (p : String) (eA eB : Entry),
      eA.oid = eB.oid → map cp p (some eA) (some eB) = .ok none) ∧
    (∀ (cp : String → String → String → String) (ta : List (String × Entry)),
      walk cp ta ta = .ok []) := by
  constructor
  · intro cp p eA eB h
    by_cases hta : eA.type = EntryType.tree
    · exact map_tree cp p _ _ (Or.inl (by simp [hta]))
    · exact map_equal cp p eA eB h
  · intro cp ta
    unfold walk
    apply walkFrom_self_nil
    intro q hq
    rcases List.mem_cons.mp hq with h | h
    · exact Or.inl h
    · right
      have := (mem_unionPaths q ta ta).mp h
      rcases List.mem_append.mp this with h2 | h2 <;>
        exact lookup_isSome_of_mem_keys q ta h2

/-- Witness for C6: same identity under different modes gives no record, and
walking a tree against itself gives no records. -/
theorem C6_equal_no_record_witness :
    sA.oid = sB.oid ∧
    map createPatch "f.md" (some sA) (some sB) = .ok none ∧
    walk createPatch [("f.md", sA), ("g.md", sC)] [("f.md", sA), ("g.md", sC)] =
      .ok [] :=
  ⟨by decide, C6_equal_no_record.1 createPatch "f.md" sA sB (by decide),
    C6_equal_no_record.2 createPatch [("f.md", sA), ("g.md", sC)]⟩

/-- C10 counterexample: in a modify record whose A-side mode is 0 and whose
B-side mode is nonzero, b_mode is the string "0" — neither null (as the claim
demands for a zero source mode read from the A side) nor the B-side mode's
decimal string "5". -/
theorem C10_counterexample :
    ((map createPatch "g.md" (some sZ) (some sA)).toOption.bind id).map
        ChangeRecord.b_mode = some (some "0") ∧
    sZ.mode = 0 ∧
    ((map createPatch "g.md" (some sZ) (some sA)).toOption.bind id).map
        ChangeRecord.new_file = some false ∧
    ((map createPatch "g.md" (some sZ) (some sA)).toOption.bind id).map
        ChangeRecord.deleted_file = some false ∧
    (some "0" : Option String) ≠ some (jsString (some sA.mode)) := by
  refine ⟨rfl, rfl, rfl, rfl, by decide⟩

/-- C10 (amended): a_mode is null iff the A-side mode is absent or zero and
otherwise is its decimal string; b_mode is null iff the B-side mode is absent
or zero; when the B-side mode is present and nonzero, b_mode is the decimal
string of the B-side mode for add records but of the A-side mode for modify
records. -/
theorem C10_mode_fields_amended (cp : String → String → String → String)
    (p : String) (A B : Option Entry) (r : ChangeRecord)
    (h : map cp p A B = .ok (some r)) :
    (r.a_mode = none ↔
      (Option.map Entry.mode A = none ∨ Option.map Entry.mode A = some 0)) ∧
    (∀ n, Option.map Entry.mode A = some n → n ≠ 0 →
      r.a_mode = some (Nat.repr n)) ∧
    (r.b_mode = none ↔
      (Option.map Entry.mode B = none ∨ Option.map Entry.mode B = some 0)) ∧
    (∀ n, Option.map Entry.mode B = some n → n ≠ 0 → r.new_file = true →
      r.b_mode = some (Nat.repr n)) ∧
    (∀ n m, Option.map Entry.mode B = some n → n ≠ 0 →
      Option.map Entry.mode A = some m → r.new_file = false →
      r.b_mode = some (Nat.repr m)) := by
  rcases (map_ok_some_inv cp p A B r h).2 with
    ⟨eB, rfl, rfl, _, rfl⟩ | ⟨eA, rfl, rfl, _, rfl⟩ |
    ⟨eA, eB, rfl, rfl, _, _, _, rfl⟩
  · refine ⟨by simp, ?_, ?_, ?_, ?_⟩
    · intro n hn hn0
      simp at hn
    · by_cases h0 : eB.mode = 0 <;> simp [truthy, h0]
    · intro n hn hn0 _
      simp only [Option.map_some', Option.some.injEq] at hn
      subst hn
      simp [truthy, hn0, jsString]
    · intro n m hn hn0 hm hnf
      simp at hnf
  · refine ⟨?_, ?_, by simp, ?_, ?_⟩
    · by_cases h0 : eA.mode = 0 <;> simp [truthy, h0]
    · intro n hn hn0
      simp only [Option.map_some', Option.some.injEq] at hn
      subst hn
      simp [truthy, hn0, jsString]
    · intro n hn hn0 _
      simp at hn
    · intro n m hn hn0 hm _
      simp at hn
  · refine ⟨?_, ?_, ?_, ?_, ?_⟩
    · by_cases h0 : eA.mode = 0 <;> simp [truthy, h0]
    · intro n hn hn0
      simp only [Option.map_some', Option.some.injEq] at hn
      subst hn
      simp [truthy, hn0, jsString]
    · by_cases h0 : eB.mode = 0 <;> simp [truthy, h0]
    · intro n hn hn0 hnf
      simp at hnf
    · intro n m hn hn0 hm _
      simp only [Option.map_some', Option.some.injEq] at hn hm
      subst hn
      subst hm
      simp [truthy, hn0, jsString]

/-- Witness for the amended C10 at a modify record with a zero A-side mode. -/
theorem C10_mode_fields_amended_witness :
    map createPatch "g.md" (some sZ) (some sA) = .ok (some
      { diff := removeNoiseFromPatch (createPatch "g.md" "z" "a\nb\nc")
        new_path := some "g.md"
        old_path := some "g.md"
        a_mode := none
        b_mode := some "0"
        new_file := false
        renamed_file := false
        deleted_file := false }) ∧
    (({ diff := removeNoiseFromPatch (createPatch "g.md" "z" "a\nb\nc")
        new_path := some "g.md"
        old_path := some "g.md"
        a_mode := none
        b_mode := some "0"
        new_file := false
        renamed_file := false
        deleted_file := false : ChangeRecord }).a_mode = none ↔
      (Option.map Entry.mode (some sZ) = none ∨
        Option.map Entry.mode (some sZ) = some 0)) := by
  have hmap : map createPatch "g.md" (some sZ) (some sA) = .ok (some
      { diff := removeNoiseFromPatch (createPatch "g.md" "z" "a\nb\nc")
        new_path := some "g.md"
        old_path := some "g.md"
        a_mode := none
        b_mode := some "0"
        new_file := false
        renamed_file := false
        deleted_file := false }) := by rfl
  exact ⟨hmap, (C10_mode_fields_amended createPatch "g.md" (some sZ) (some sA) _ hmap).1⟩

/-! ## Claims C3 and C9 -/

theorem recordsFor_append (p : String) (xs ys : List ChangeRecord) :
    recordsFor p (xs ++ ys) = recordsFor p xs ++ recordsFor p ys := by
  unfold recordsFor
  rw [List.filter_append]

theorem map_add_eq_addedRecord (p C : String) (e : Entry) (hp : p ≠ ".")
    (hnl : '\n' ∉ p.data) (hblob : e.type = EntryType.blob)
    (hC : e.content = some C) :
    map createPatch p none (some e) = .ok (some (addedRecord p C e.mode)) := by
  rw [map_add createPatch p e hp (by simp [hblob]), hC]
  have hd : removeNoiseFromPatch (createPatch p "" ((some C).getD "")) =
      joinNL (hunkHeader [] (textLines C)
        :: (textLines C).map (fun l => "+" ++ l)) := by
    have hg : ((some C).getD "" : String) = C := rfl
    rw [hg, stored_diff_eq p "" C hnl]
    have ht : textLines "" = ([] : List String) := rfl
    rw [ht, diffBody_nil_left]
  unfold addedRecord
  rw [hd]

/-- C3: for a path present only in tree B with blob content C, the walk's
result contains exactly one record mentioning that path — an add record with
new_file true, old_path null, new_path the path, deleted_file and renamed_file
false — whose stored diff consists of the hunk lines only (no header lines
remain) and contains every line of C as an addition. -/
theorem C3_add_only_in_B (ta tb : List (String × Entry)) (p C : String)
    (e : Entry) (rs : List ChangeRecord)
    (hB : List.lookup p tb = some e) (hA : p ∉ keys ta) (hp : p ≠ ".")
    (hnl : '\n' ∉ p.data) (hblob : e.type = EntryType.blob)
    (hC : e.content = some C)
    (hw : walk createPatch ta tb = .ok rs) :
    recordsFor p rs = [addedRecord p C e.mode] ∧
    jsSplitNL (addedRecord p C e.mode).diff =
      hunkHeader [] (textLines C) :: (textLines C).map (fun l => "+" ++ l) ∧
    ∀ l ∈ textLines C, ("+" ++ l) ∈ jsSplitNL (addedRecord p C e.mode).diff := by
  have hlines : jsSplitNL (addedRecord p C e.mode).diff =
      hunkHeader [] (textLines C) :: (textLines C).map (fun l => "+" ++ l) := by
    unfold addedRecord
    apply jsSplitNL_joinNL
    · simp
    · intro s hs
      rcases List.mem_cons.mp hs with h | h
      · exact h ▸ hunkHeader_no_newline _ _
      · rcases List.mem_map.mp h with ⟨x, hx, rfl⟩
        exact no_newline_append _ _ (by decide) (mem_textLines_no_newline C x hx)
  refine ⟨?_, hlines, ?_⟩
  · have hmem : p ∈ unionPaths ta tb :=
      (mem_unionPaths p ta tb).mpr
        (List.mem_append.mpr (Or.inr (mem_keys_of_lookup p tb e hB)))
    obtain ⟨l1, l2, hsplit⟩ := List.append_of_mem hmem
    have hnodup := nodup_unionPaths ta tb
    rw [hsplit] at hnodup
    rcases List.nodup_append.mp hnodup with ⟨_, h2, hdisj⟩
    have hp_l1 : p ∉ l1 := fun hin => hdisj hin (List.mem_cons_self p l2)
    have hp_l2 : p ∉ l2 := (List.nodup_cons.mp h2).1
    unfold walk at hw
    rw [hsplit] at hw
    have hco : ("." :: (l1 ++ p :: l2)) = ("." :: l1) ++ (p :: l2) := rfl
    rw [hco] at hw
    rcases (walkFrom_append createPatch ta tb _ _ rs).mp hw with
      ⟨r1, r2, hw1, hw2, rfl⟩
    have hr1 : recordsFor p r1 = [] := by
      refine recordsFor_nil_of_not_mem createPatch ta tb p _ ?_ r1 hw1
      intro hin
      rcases List.mem_cons.mp hin with h | h
      · exact hp h
      · exact hp_l1 h
    have hlA : List.lookup p ta = none := lookup_eq_none_of_not_mem p ta hA
    have hmap := map_add_eq_addedRecord p C e hp hnl hblob hC
    simp only [walkFrom, hlA, hB, hmap] at hw2
    cases hrest : walkFrom createPatch ta tb l2 with
    | error e2 =>
      rw [hrest] at hw2
      simp at hw2
    | ok rtail =>
      rw [hrest] at hw2
      simp only [Except.ok.injEq] at hw2
      have hrtail : recordsFor p rtail = [] :=
        recordsFor_nil_of_not_mem createPatch ta tb p l2 hp_l2 rtail hrest
      rw [← hw2, recordsFor_append, hr1, recordsFor_cons]
      have hcond : ((addedRecord p C e.mode).new_path == some p ||
          (addedRecord p C e.mode).old_path == some p) = true := by
        simp [addedRecord]
      rw [hcond]
      simp [hrtail]
  · intro l hl
    rw [hlines]
    exact List.mem_cons_of_mem _ (List.mem_map.mpr ⟨l, hl, rfl⟩)

/-- Witness for C3 on the specification's scenario: tree A empty, tree B
holding page-1.md. -/
theorem C3_add_only_in_B_witness :
    List.lookup "page-1.md" tC = some p1 ∧
    walk createPatch [] tC = .ok wC3 ∧
    recordsFor "page-1.md" wC3 =
      [addedRecord "page-1.md" "# This is the first page" 5] := by
  have h := C3_add_only_in_B [] tC "page-1.md" "# This is the first page" p1
    wC3 rfl (by decide) (by decide) (by decide) rfl rfl rfl
  exact ⟨rfl, rfl, h.1⟩

/-- C9: diffing tree A against tree B and tree B against tree A yields record
lists that are pointwise structural mirrors — adds become removes of the same
path with old and new paths swapped, removes become adds, and modify records
keep their paths while their diff bodies swap additions and deletions. -/
theorem C9_mirror (ta tb : List (String × Entry))
    (hnl : ∀ q ∈ keys ta ++ keys tb, '\n' ∉ q.data)
    (rs ss : List ChangeRecord)
    (h1 : walk createPatch ta tb = .ok rs)
    (h2 : walk createPatch tb ta = .ok ss) :
    mirrorsList rs ss = true := by
  unfold walk at h1 h2
  rw [unionPaths_comm] at h2
  refine walkFrom_mirror ta tb ("." :: unionPaths ta tb) ?_ rs ss h1 h2
  intro q hq
  rcases List.mem_cons.mp hq with h | h
  · subst h
    decide
  · exact hnl q ((mem_unionPaths q ta tb).mp h)

/-- Witness for C9 on a tree pair with one add, one remove and one modify. -/
theorem C9_mirror_witness :
    walk createPatch tWa tWb = .ok wRS ∧
    walk createPatch tWb tWa = .ok wSS ∧
    mirrorsList wRS wSS = true :=
  ⟨rfl, rfl, C9_mirror tWa tWb (by decide) wRS wSS rfl rfl⟩

end GitDiff
